import Mathlib

/-!
# Verification of the rclcpp event-dispatch / intra-process transport layer

Shallow embedding of `rclcpp::Duration` (duration.cpp), the
`WaitSetTemplate` (wait_set_template.hpp), and the spec-described
RingBuffer / IntraProcessManager / wait-set policy components, together
with proofs of the frozen claims about them.

Machine integers are modelled as `Int` with explicit two's-complement
wrapping (`wrap64`, `wrap32`) at the points where the C++ code performs
conversions, and C++ signed division/remainder (truncation toward zero)
as `Int.tdiv` / `Int.tmod`.
-/

namespace Rclcpp

/-- Constant `2^63`, the bound of `int64_t`. -/
def int64Half : Int := 9223372036854775808

/-- Constant `2^64`. -/
def uint64Mod : Int := 18446744073709551616

/-- Value of `std::numeric_limits<int64_t>::max()`, i.e. `2^63 - 1`. -/
def int64Max : Int := 9223372036854775807

/-- Constant `2^31`. -/
def int32Half : Int := 2147483648

/-- Constant `2^32`. -/
def uint32Mod : Int := 4294967296

/-- Two's-complement wrap of an integer into `int64_t` range
(what assigning an out-of-range value to `int64_t` does on the
target platforms). -/
def wrap64 (x : Int) : Int := (x + int64Half) % uint64Mod - int64Half

/-- Two's-complement wrap of an integer into `int32_t` range
(C++ `static_cast<int32_t>` on a wider integer). -/
def wrap32 (x : Int) : Int := (x + int32Half) % uint32Mod - int32Half

/-- C++ `static_cast<uint64_t>`: value modulo `2^64`, as a non-negative
integer. -/
def toUInt64Model (x : Int) : Int := x % uint64Mod

/-- C++ `static_cast<uint32_t>`: value modulo `2^32`. -/
def toUInt32Model (x : Int) : Int := x % uint32Mod

/-- Macro `RCL_S_TO_NS` from rcl/time.h: multiply seconds by `10^9`
(`seconds * (1000LL * 1000LL * 1000LL)`). Mathematical product; the
callers wrap the result where the C++ conversion does. -/
def RCL_S_TO_NS (seconds : Int) : Int := seconds * 1000000000

/-- Macro `RCL_NS_TO_S` from rcl/time.h: C++ `int64_t` division by `10^9`,
truncating toward zero. -/
def RCL_NS_TO_S (nanoseconds : Int) : Int := nanoseconds.tdiv 1000000000

/-- Message type `builtin_interfaces::msg::Duration`: `sec` is `int32_t`,
`nanosec` is `uint32_t`. -/
structure DurationMsg where
  sec : Int
  nanosec : Int
  deriving Repr, DecidableEq

/-- Conversion `Duration::operator builtin_interfaces::msg::Duration() const`
(duration.cpp lines 63-70): `sec` is the `int32_t` cast of
`RCL_NS_TO_S(ns)`, `nanosec` the `uint32_t` cast of `ns % 10^9`
(C++ `%`, truncated remainder). -/
def durationToMsg (ns : Int) : DurationMsg :=
  { sec := wrap32 (RCL_NS_TO_S ns)
    nanosec := toUInt32Model (ns.tmod 1000000000) }

/-- Constructor `Duration::Duration(const builtin_interfaces::msg::Duration &)`
(duration.cpp lines 52-56): `nanoseconds = RCL_S_TO_NS(uint64_t(sec))`,
stored into the `int64_t` field, then `+= nanosec` (again `int64_t`). -/
def durationFromMsg (msg : DurationMsg) : Int :=
  wrap64 (wrap64 (RCL_S_TO_NS (toUInt64Model msg.sec)) + msg.nanosec)

/-- Error kinds thrown by the Duration arithmetic bounds checks
(`std::overflow_error` / `std::underflow_error`). -/
inductive ArithError where
  | overflow
  | underflow
  deriving Repr, DecidableEq

/-- Model of `(uint64_t)std::abs(x)` for an `int64_t` x as the C++ code computes it
on the two's-complement targets: the mathematical magnitude (for
`x = INT64_MIN`, `std::abs` returns `INT64_MIN` and the `uint64_t` cast
yields `2^63`, which is again the mathematical magnitude). -/
def absAsUInt64 (x : Int) : Int := |x|

/-- Function `bounds_check_duration_sum` (duration.cpp lines 110-124): computes the
`uint64_t` magnitudes of both operands, and throws overflow (resp.
underflow) when both are positive (resp. negative) and the `uint64_t` sum
of magnitudes exceeds `max`. The `uint64_t` addition wraps modulo `2^64`. -/
def bounds_check_duration_sum (lhsns rhsns max : Int) : Option ArithError :=
  let abs_lhs := absAsUInt64 lhsns
  let abs_rhs := absAsUInt64 rhsns
  let magSum := (abs_lhs + abs_rhs) % uint64Mod
  if lhsns > 0 ∧ rhsns > 0 then
    if magSum > max then some .overflow else none
  else if lhsns < 0 ∧ rhsns < 0 then
    if magSum > max then some .underflow else none
  else none

/-- Operator `Duration::operator+` (duration.cpp lines 126-132): runs
`bounds_check_duration_sum` with `max = INT64_MAX`, then returns the
`int64_t` sum (which wraps if the check failed to catch an overflow). -/
def durationAdd (lhs rhs : Int) : Except ArithError Int :=
  match bounds_check_duration_sum lhs rhs int64Max with
  | some e => .error e
  | none => .ok (wrap64 (lhs + rhs))

/-! ## WaitSetTemplate: WaitResult hold flag (wait_set_template.hpp lines 482-514) -/

/-- The two operations a `WaitResult` performs on its wait set. -/
inductive HoldOp where
  | acquire
  | release
  deriving Repr, DecidableEq

/-- Method `WaitSetTemplate::wait_result_acquire` (lines 482-493): throws
`std::runtime_error` when `wait_result_holding_` is already true, else sets
it. The state is the `wait_result_holding_` flag; the nested sync/storage
calls do not touch it. -/
def wait_result_acquire (holding : Bool) : Except String Bool :=
  if holding then
    .error "wait_result_acquire() called while already holding"
  else
    .ok true

/-- Method `WaitSetTemplate::wait_result_release` (lines 501-512): throws
`std::runtime_error` when `wait_result_holding_` is false, else clears it. -/
def wait_result_release (holding : Bool) : Except String Bool :=
  if !holding then
    .error "wait_result_release() called while not holding"
  else
    .ok false

/-- Run a sequence of acquire/release operations from a given state of the
`wait_result_holding_` flag, stopping at the first thrown error. -/
def runHoldOps (holding : Bool) : List HoldOp → Except String Bool
  | [] => .ok holding
  | op :: ops =>
    match (match op with
           | .acquire => wait_result_acquire holding
           | .release => wait_result_release holding) with
    | .error e => .error e
    | .ok h => runHoldOps h ops

/-- Whether running the operations from a state throws no error. -/
def holdRunOk (holding : Bool) (ops : List HoldOp) : Bool :=
  match runHoldOps holding ops with
  | .ok _ => true
  | .error _ => false

/-- Number of outstanding `WaitResult` holds encoded by the flag. -/
def holdCount (holding : Bool) : Nat := if holding then 1 else 0

/-- The operation expected at step `i` of an acquire/release run starting
with `wait_result_holding_ = holding`: runs that throw no error are
exactly the strictly alternating ones. -/
def expectedOp (holding : Bool) (i : Nat) : HoldOp :=
  if (i % 2 = 0) ↔ (holding = false) then .acquire else .release

/-! ## WaitSetTemplate: guard-condition membership (lines 306-357)

The null checks are in the source; the duplicate/absent checks live in the
dynamic storage policy, which is not under src/ and is modelled from the
spec and the source's documentation (it throws if the guard condition was
already added / is not part of the wait set). Errors are C++ exceptions
thrown before any mutation, so on error the returned membership is the
input membership, unchanged. -/

/-- The usage errors of add/remove: `std::invalid_argument` for a null
entity, `std::runtime_error` for duplicate add or absent remove. -/
inductive UsageError where
  | invalidArgument
  | alreadyAdded
  | notInSet
  deriving Repr, DecidableEq

/-- Method `WaitSetTemplate::add_guard_condition` (lines 306-321): a null pointer
throws `std::invalid_argument`; the storage add (modelled from the spec,
not under src/) throws if the guard condition has already been added, else
appends it. Returns (thrown error if any, membership afterwards). -/
def add_guard_condition (guard_condition : Option Nat) (s : List Nat) :
    Option UsageError × List Nat :=
  match guard_condition with
  | none => (some .invalidArgument, s)
  | some g => if g ∈ s then (some .alreadyAdded, s) else (none, s ++ [g])

/-- Method `WaitSetTemplate::remove_guard_condition` (lines 342-357): a null
pointer throws `std::invalid_argument`; the storage remove (modelled from
the spec, not under src/) throws if the guard condition is not part of the
wait set, else erases it. -/
def remove_guard_condition (guard_condition : Option Nat) (s : List Nat) :
    Option UsageError × List Nat :=
  match guard_condition with
  | none => (some .invalidArgument, s)
  | some g => if g ∈ s then (none, s.erase g) else (some .notInSet, s)

/-! ## Fixed storage policy (C7)

Modelled from the spec: the fixed-size storage policy itself is not under
src/. Per the source's documentation (lines 287-300, 334-341) the
add/remove methods "will not be enabled (will not be available)" on it, so
the operations available on such a wait set are construction-time
membership, waiting, and the WaitResult hold pair. -/

/-- A wait set with fixed storage: membership fixed at construction plus
the mutable `wait_result_holding_` flag from the template. -/
structure FixedWaitSet where
  members : List Nat
  holding : Bool
  deriving Repr, DecidableEq

/-- The operations available on a fixed-storage wait set: `wait`, and the
WaitResult acquire/release. `add`/`remove`/`prune` do not exist on it. -/
inductive FixedOp where
  | wait (timeout : Int)
  | resultAcquire
  | resultRelease
  deriving Repr, DecidableEq

/-- Effect of one available operation on a fixed-storage wait set. Waiting
rebuilds/polls but does not change membership; the hold operations only
toggle the hold flag. -/
def fixedStep (ws : FixedWaitSet) (op : FixedOp) : FixedWaitSet :=
  match op with
  | .wait _ => ws
  | .resultAcquire => { ws with holding := true }
  | .resultRelease => { ws with holding := false }

/-! ## Dynamic storage pruning (C4)

Modelled from the spec: the DynamicStorage policy holding the weak
references is not under src/; `WaitSetTemplate::prune_deleted_entities`
(lines 375-385) delegates to its `storage_prune_deleted_entities`, which
drops every expired weak reference. -/

/-- An entity tracked by the dynamic storage through a weak reference:
`owner = none` models an expired weak reference (the owner was
destroyed). -/
structure WeakEntity where
  id : Nat
  owner : Option Nat
  ready : Bool
  deriving Repr, DecidableEq

/-- Method `storage_prune_deleted_entities`: keep exactly the entities whose
owner is still alive. -/
def storage_prune_deleted_entities (s : List WeakEntity) : List WeakEntity :=
  s.filter (fun e => e.owner.isSome)

/-- Collect the entities handed to dispatch: a dead weak reference cannot
be locked, so only live, ready entities are collected. -/
def collectReady (s : List WeakEntity) : List WeakEntity :=
  s.filter (fun e => e.owner.isSome && e.ready)

/-! ## RingBuffer (C5)

Modelled from the spec: RingBufferImplementation is not under src/.
Capacity is fixed at construction; push always succeeds, dropping the
oldest unread payload on overflow ("keep latest"); pop removes the oldest
payload or signals Empty. The buffer is modelled as the list of stored
payloads, oldest first. -/

/-- Push a payload: append it, and if the buffer would exceed capacity,
drop from the front (oldest first) to fit. Always succeeds. -/
def ringPush (capacity : Nat) (buf : List α) (x : α) : List α :=
  let b := buf ++ [x]
  b.drop (b.length - capacity)

/-- Pop the oldest payload, or `none` to signal Empty. -/
def ringPop (buf : List α) : Option (α × List α) :=
  match buf with
  | [] => none
  | oldest :: rest => some (oldest, rest)

/-- Push a whole sequence of payloads in order. -/
def ringPushAll (capacity : Nat) (buf : List α) (xs : List α) : List α :=
  xs.foldl (ringPush capacity) buf

/-- Repeatedly pop until Empty, returning the popped payloads in order. -/
def ringDrain : List α → List α
  | [] => []
  | oldest :: rest => oldest :: ringDrain rest

/-- The three payloads of the capacity-2 scenario. -/
inductive ABC where
  | A
  | B
  | C
  deriving Repr, DecidableEq

/-! ## IntraProcessManager ownership-aware delivery (C6)

Modelled from the spec: intra_process_manager.cpp is not under src/. A
publish of a uniquely-owned payload to the currently matched
subscriptions pushes into each match's RingBuffer; every match but the
last receives a freshly allocated copy with equal content, and the last
match receives the original payload itself (ownership transferred, no
copy). `take` pops the subscription's RingBuffer. -/

/-- A message payload: observable `content` plus an allocation identity
distinguishing the original allocation from copies of it. -/
structure IpmPayload where
  alloc : Nat
  content : Nat
  deriving Repr, DecidableEq

/-- A registered subscription: id, its RingBuffer capacity and current
buffer contents. -/
structure IpmSub where
  id : Nat
  capacity : Nat
  buffer : List IpmPayload
  deriving Repr, DecidableEq

/-- Deliver a uniquely-owned payload to the matched subscriptions, in
match order. `nextAlloc` supplies fresh allocation identities for copies.
Returns (updated subscriptions, next fresh allocation id, number of
copies made). -/
def publishDeliver (p : IpmPayload) (nextAlloc : Nat) :
    List IpmSub → List IpmSub × Nat × Nat
  | [] => ([], nextAlloc, 0)
  | [last] =>
    ([{ last with buffer := ringPush last.capacity last.buffer p }], nextAlloc, 0)
  | s :: rest =>
    let copy : IpmPayload := { alloc := nextAlloc, content := p.content }
    let r := publishDeliver p (nextAlloc + 1) rest
    ({ s with buffer := ringPush s.capacity s.buffer copy } :: r.1, r.2.1, r.2.2 + 1)

/-- Operation `take` on one subscription: pop its RingBuffer (`none` signals
Empty), returning the payload and the subscription with the drained
buffer. -/
def ipmTake (s : IpmSub) : Option IpmPayload × IpmSub :=
  match ringPop s.buffer with
  | none => (none, s)
  | some (p, rest) => (some p, { s with buffer := rest })

/-! ## WaitSet wait semantics (C1)

Modelled from the spec: the synchronization and storage policies
implementing the blocking wait are not under src/;
`WaitSetTemplate::wait` (wait_set_template.hpp lines 387-468) documents
the contract. A member is modelled by the time at which it becomes ready
(`none` = never). -/

/-- Result kinds of a wait (wait_result.hpp). -/
inductive WaitResultKind where
  | Ready
  | Timeout
  | Empty
  deriving Repr, DecidableEq

/-- Earliest time at which some member becomes ready, if any ever does. -/
def earliestReady (members : List (Option Nat)) : Option Nat :=
  members.foldr
    (fun r acc =>
      match r, acc with
      | none, acc => acc
      | some t, none => some t
      | some t, some u => some (min t u))
    none

/-- Operation `wait(time_to_wait)`: Empty immediately when the set has no members;
otherwise Ready as soon as a member is ready within the allowed time,
Timeout once a non-negative `time_to_wait` elapses first, and for a
negative `time_to_wait` it waits indefinitely — returning Ready when some
member eventually becomes ready and never returning (`none`) when none
ever does. -/
def waitModel (members : List (Option Nat)) (timeToWait : Int) :
    Option WaitResultKind :=
  if members.isEmpty then
    some .Empty
  else
    match earliestReady members with
    | some r =>
      if timeToWait < 0 ∨ (r : Int) ≤ timeToWait then some .Ready
      else some .Timeout
    | none => if timeToWait < 0 then none else some .Timeout

/-- The time at which `waitModel` returns, measured from the start of the
wait (`none` = never returns). -/
def waitCompletionTime (members : List (Option Nat)) (timeToWait : Int) :
    Option Int :=
  if members.isEmpty then
    some 0
  else
    match earliestReady members with
    | some r => if timeToWait < 0 then some r else some (min r timeToWait)
    | none => if timeToWait < 0 then none else some timeToWait

/-! ## ThreadSafe synchronization: interrupted waits (C3)

Modelled from the spec: ThreadSafeSynchronization's `sync_wait` is not
under src/. A concurrent add/remove/prune triggers the internal guard
condition, which interrupts the in-progress wait; the wait applies the
mutation and restarts with the updated membership and the remaining (not
the original) timeout budget, an indefinite wait restarting indefinite. -/

/-- A membership mutation (add, remove or prune) arriving from another
thread `delay` time units after the current (re)start of the wait. -/
structure Mutation where
  delay : Nat
  update : List (Option Nat) → List (Option Nat)

/-- Whether a mutation arriving `delay` after the (re)start of a wait on
`members` with budget `timeToWait` finds that wait still in progress. -/
def arrivesDuringWait (members : List (Option Nat)) (timeToWait : Int)
    (delay : Nat) : Bool :=
  match waitCompletionTime members timeToWait with
  | none => true
  | some c => (delay : Int) < c

/-- The ThreadSafe wait loop: each mutation that arrives while the wait is
still in progress interrupts it, is applied, and the wait restarts with
the updated membership and the remaining budget; once a wait runs to
completion the remaining mutations arrive too late to matter. Returns
(wait result, membership of the final wait, budget of the final wait). -/
def threadSafeWait (members : List (Option Nat)) (timeToWait : Int) :
    List Mutation → Option WaitResultKind × List (Option Nat) × Int
  | [] => (waitModel members timeToWait, members, timeToWait)
  | m :: rest =>
    if arrivesDuringWait members timeToWait m.delay then
      threadSafeWait (m.update members)
        (if timeToWait < 0 then timeToWait else timeToWait - m.delay) rest
    else
      (waitModel members timeToWait, members, timeToWait)

end Rclcpp

namespace Rclcpp

theorem wrap64_eq_self {x : Int} (h1 : -int64Half ≤ x) (h2 : x < int64Half) :
    wrap64 x = x := by
  unfold wrap64 int64Half uint64Mod at *
  omega

theorem wrap32_eq_self {x : Int} (h1 : -int32Half ≤ x) (h2 : x < int32Half) :
    wrap32 x = x := by
  unfold wrap32 int32Half uint32Mod at *
  omega

theorem tdiv_eq_ediv_of_nonneg {a b : Int} (ha : 0 ≤ a) (hb : 0 ≤ b) :
    a.tdiv b = a / b :=
  Int.tdiv_eq_ediv ha hb

theorem tmod_eq_emod_of_nonneg {a b : Int} (ha : 0 ≤ a) (hb : 0 ≤ b) :
    a.tmod b = a % b :=
  Int.tmod_eq_emod ha hb

/-- C8. The claim as stated is false: the message `sec` field is an
`int32_t`, and for the non-negative nanosecond count
`2147483648000000000` (2^31 seconds) the whole-second count overflows it,
so the round trip yields `-2147483648000000000`, not the original. -/
theorem c8_roundtrip_counterexample :
    durationFromMsg (durationToMsg 2147483648000000000) = -2147483648000000000 ∧
    (-2147483648000000000 : Int) ≠ 2147483648000000000 := by
  constructor
  · decide
  · decide

/-- C8 (amended). For every Duration whose nanosecond count is
non-negative and whose whole-second count fits `int32_t` (nanoseconds at
most 2147483647999999999), converting to a
`builtin_interfaces::msg::Duration` and back yields the original
Duration. -/
theorem c8_duration_msg_roundtrip (ns : Int) (h0 : 0 ≤ ns)
    (h1 : ns ≤ 2147483647999999999) :
    durationFromMsg (durationToMsg ns) = ns := by
  have hd : ns.tdiv 1000000000 = ns / 1000000000 :=
    tdiv_eq_ediv_of_nonneg h0 (by norm_num)
  have hm : ns.tmod 1000000000 = ns % 1000000000 :=
    tmod_eq_emod_of_nonneg h0 (by norm_num)
  have hq0 : 0 ≤ ns / 1000000000 := Int.ediv_nonneg h0 (by norm_num)
  have hq1 : ns / 1000000000 ≤ 2147483647 := by omega
  have hr0 : 0 ≤ ns % 1000000000 := Int.emod_nonneg ns (by norm_num)
  have hr1 : ns % 1000000000 < 1000000000 := Int.emod_lt_of_pos ns (by norm_num)
  simp only [durationFromMsg, durationToMsg, RCL_NS_TO_S, RCL_S_TO_NS,
    toUInt64Model, toUInt32Model, hd, hm]
  rw [wrap32_eq_self (by unfold int32Half; omega) (by unfold int32Half; omega)]
  rw [Int.emod_eq_of_lt hq0 (by unfold uint64Mod; omega)]
  rw [Int.emod_eq_of_lt hr0 (by unfold uint32Mod; omega)]
  have hin : wrap64 (ns / 1000000000 * 1000000000) = ns / 1000000000 * 1000000000 :=
    wrap64_eq_self (by unfold int64Half; omega) (by unfold int64Half; omega)
  rw [hin]
  rw [wrap64_eq_self (by unfold int64Half; omega) (by unfold int64Half; omega)]
  omega

/-- C8 witness: the round trip at 1.5 seconds. -/
theorem c8_duration_msg_roundtrip_witness :
    durationFromMsg (durationToMsg 1500000000) = 1500000000 :=
  c8_duration_msg_roundtrip 1500000000 (by norm_num) (by norm_num)

/-- C9. At `lhs = rhs = INT64_MIN` both operands are negative and the sum
of magnitudes (2^64) exceeds INT64_MAX, so the claim requires an
underflow error; but the `uint64_t` magnitude sum wraps to 0 inside
`bounds_check_duration_sum`, the check passes, and the addition itself
overflows, returning 0. -/
theorem c9_duration_add_bounds_check_miss :
    durationAdd (-9223372036854775808) (-9223372036854775808) = .ok 0 ∧
    bounds_check_duration_sum (-9223372036854775808) (-9223372036854775808)
      int64Max = none := by
  constructor
  · rfl
  · rfl

theorem expectedOp_succ (h : Bool) (i : Nat) :
    expectedOp h (i + 1) = expectedOp (!h) i := by
  cases h <;> simp [expectedOp, Nat.succ_mod_two_eq_zero_iff]

theorem expectedOp_zero_false : expectedOp false 0 = .acquire := by
  simp [expectedOp]

theorem expectedOp_zero_true : expectedOp true 0 = .release := by
  simp [expectedOp]

theorem holdRunOk_iff (ops : List HoldOp) :
    ∀ h : Bool, holdRunOk h ops = true ↔
      ∀ i : Fin ops.length, ops.get i = expectedOp h i.val := by
  induction ops with
  | nil =>
    intro h
    simp [holdRunOk, runHoldOps]
  | cons op rest ih =>
    intro h
    cases op <;> cases h <;>
      simp [holdRunOk, runHoldOps, wait_result_acquire, wait_result_release,
        Fin.forall_fin_succ, expectedOp_zero_false, expectedOp_zero_true,
        expectedOp_succ] <;>
      simpa [holdRunOk] using ih _

/-- C10. The WaitResult hold on a wait set strictly alternates: acquiring
while already holding throws a runtime error, releasing while not holding
throws a runtime error, the flag encodes at most one outstanding hold in
every state, and an acquire/release run from the initial state throws no
error exactly when it strictly alternates starting with acquire. -/
theorem c10_wait_result_hold_alternation :
    wait_result_acquire true =
      .error "wait_result_acquire() called while already holding" ∧
    wait_result_release false =
      .error "wait_result_release() called while not holding" ∧
    (∀ h : Bool, holdCount h ≤ 1) ∧
    (∀ ops : List HoldOp, holdRunOk false ops = true ↔
      ∀ i : Fin ops.length,
        ops.get i = if i.val % 2 = 0 then HoldOp.acquire else HoldOp.release) := by
  refine ⟨rfl, rfl, ?_, ?_⟩
  · intro h
    cases h <;> simp [holdCount]
  · intro ops
    rw [holdRunOk_iff]
    constructor <;> intro hall i <;>
      have := hall i <;> simp [expectedOp] at this ⊢ <;>
      split_ifs at this ⊢ <;> assumption

/-- C2. Add/remove of a guard condition: a null entity throws
`std::invalid_argument`, adding a duplicate throws the already-added
usage error, removing an absent entity throws the not-in-set usage
error; every error is returned immediately (no retry is modelled — the
functions are single-shot) and on any error the returned membership is
the input membership, unchanged. -/
theorem c2_guard_condition_usage_errors :
    (∀ s : List Nat, add_guard_condition none s = (some .invalidArgument, s)) ∧
    (∀ s : List Nat, remove_guard_condition none s = (some .invalidArgument, s)) ∧
    (∀ (g : Nat) (s : List Nat), g ∈ s →
      add_guard_condition (some g) s = (some .alreadyAdded, s)) ∧
    (∀ (g : Nat) (s : List Nat), g ∉ s →
      remove_guard_condition (some g) s = (some .notInSet, s)) ∧
    (∀ (gc : Option Nat) (s : List Nat) (e : UsageError),
      (add_guard_condition gc s).1 = some e → (add_guard_condition gc s).2 = s) ∧
    (∀ (gc : Option Nat) (s : List Nat) (e : UsageError),
      (remove_guard_condition gc s).1 = some e →
        (remove_guard_condition gc s).2 = s) := by
  refine ⟨fun s => rfl, fun s => rfl, ?_, ?_, ?_, ?_⟩
  · intro g s hg
    simp [add_guard_condition, hg]
  · intro g s hg
    simp [remove_guard_condition, hg]
  · intro gc s e he
    match gc with
    | none => rfl
    | some g =>
      simp only [add_guard_condition] at he ⊢
      split_ifs at he ⊢
      simp_all
  · intro gc s e he
    match gc with
    | none => rfl
    | some g =>
      simp only [remove_guard_condition] at he ⊢
      split_ifs at he ⊢
      simp_all

/-- C2 witness: duplicate add, absent remove, membership preserved. -/
theorem c2_guard_condition_usage_errors_witness :
    add_guard_condition (some 1) [1] = (some .alreadyAdded, [1]) ∧
    remove_guard_condition (some 2) [1] = (some .notInSet, [1]) ∧
    (add_guard_condition (some 1) [1]).2 = [1] :=
  ⟨c2_guard_condition_usage_errors.2.2.1 1 [1] (by decide),
   c2_guard_condition_usage_errors.2.2.2.1 2 [1] (by decide),
   c2_guard_condition_usage_errors.2.2.2.2.1 (some 1) [1] .alreadyAdded (by decide)⟩

/-- C7. A wait set with the fixed storage policy exposes no add or remove
operation, so after any sequence of its available operations the
membership equals the membership fixed at construction. -/
theorem c7_fixed_storage_membership_constant :
    ∀ (ops : List FixedOp) (ws : FixedWaitSet),
      (ops.foldl fixedStep ws).members = ws.members := by
  intro ops
  induction ops with
  | nil => intro ws; rfl
  | cons op rest ih =>
    intro ws
    rw [List.foldl_cons, ih]
    cases op <;> rfl

/-- C4. After `prune_deleted_entities`, the membership consists of exactly
the previous members whose owner is still alive (every expired weak
reference removed), and the ready-set handed to dispatch never contains
an entity whose owner has died. -/
theorem c4_prune_drops_dead_entities :
    (∀ (s : List WeakEntity) (e : WeakEntity),
      e ∈ storage_prune_deleted_entities s ↔ e ∈ s ∧ e.owner.isSome = true) ∧
    (∀ (s : List WeakEntity) (e : WeakEntity),
      e ∈ collectReady s → e.owner.isSome = true) := by
  constructor
  · intro s e
    simp [storage_prune_deleted_entities, List.mem_filter]
  · intro s e he
    simp [collectReady, List.mem_filter] at he
    exact he.2.1

theorem ringPush_length (cap : Nat) (buf : List α) (x : α) :
    (ringPush cap buf x).length = min (buf.length + 1) cap := by
  simp [ringPush]
  omega

theorem ringPushAll_eq_drop (cap : Nat) :
    ∀ (xs buf : List α), buf.length ≤ cap →
      ringPushAll cap buf xs = (buf ++ xs).drop (buf.length + xs.length - cap) := by
  intro xs
  induction xs with
  | nil =>
    intro buf hb
    simp [ringPushAll, Nat.sub_eq_zero_of_le hb]
  | cons x xs ih =>
    intro buf hb
    have hlen : (ringPush cap buf x).length ≤ cap := by
      rw [ringPush_length]
      omega
    have hrec := ih (ringPush cap buf x) hlen
    simp only [ringPushAll, List.foldl_cons] at hrec ⊢
    rw [hrec, ringPush_length]
    simp only [ringPush]
    rw [← List.drop_append_of_le_length (by simp), List.drop_drop]
    have harr : (buf ++ [x]) ++ xs = buf ++ x :: xs := by simp
    rw [harr]
    congr 1
    simp
    omega

theorem ringDrain_eq (buf : List α) : ringDrain buf = buf := by
  induction buf with
  | nil => rfl
  | cons oldest rest ih => simp [ringDrain, ih]

/-- C4 witness: pruning keeps the live entity, and dispatch collection
only sees entities with live owners. -/
theorem c4_prune_drops_dead_entities_witness :
    (⟨1, some 7, true⟩ : WeakEntity) ∈
      storage_prune_deleted_entities [⟨1, some 7, true⟩, ⟨2, none, true⟩] ∧
    (⟨1, some 7, true⟩ : WeakEntity).owner.isSome = true :=
  ⟨(c4_prune_drops_dead_entities.1 [⟨1, some 7, true⟩, ⟨2, none, true⟩] _).mpr
      (by decide),
   c4_prune_drops_dead_entities.2 [⟨1, some 7, true⟩, ⟨2, none, true⟩] _ (by decide)⟩

/-- C5. RingBuffer "keep latest": pushing `N + k` payloads (`k > 0`) into
a capacity-`N` buffer (every push succeeding by construction) leaves
exactly the last `N`, pops retrieve the buffer contents oldest-first
until Empty, and in the capacity-2 scenario pushing A, B, C makes pop
yield B, then C, then Empty. -/
theorem c5_ring_buffer_keep_latest :
    (∀ {α : Type} (cap k : Nat) (xs : List α), xs.length = cap + k → 0 < k →
      ringPushAll cap [] xs = xs.drop k ∧ (ringPushAll cap [] xs).length = cap) ∧
    (∀ {α : Type} (buf : List α), ringDrain buf = buf) ∧
    (ringPushAll 2 [] [ABC.A, ABC.B, ABC.C] = [ABC.B, ABC.C] ∧
      ringPop (ringPushAll 2 [] [ABC.A, ABC.B, ABC.C]) = some (ABC.B, [ABC.C]) ∧
      ringPop [ABC.C] = some (ABC.C, ([] : List ABC)) ∧
      ringPop ([] : List ABC) = none) := by
  refine ⟨?_, ?_, by decide, by decide, by decide, by decide⟩
  · intro α cap k xs hlen hk
    have hall := ringPushAll_eq_drop cap xs [] (by simp)
    simp only [List.nil_append, List.length_nil, Nat.zero_add] at hall
    constructor
    · rw [hall]
      congr 1
      omega
    · rw [hall]
      simp
      omega
  · intro α buf
    exact ringDrain_eq buf

/-- C5 witness: capacity 2, pushing three payloads keeps the last two. -/
theorem c5_ring_buffer_keep_latest_witness :
    ringPushAll 2 [] [10, 20, 30] = [20, 30] ∧
    (ringPushAll 2 ([] : List Nat) [10, 20, 30]).length = 2 :=
  c5_ring_buffer_keep_latest.1 2 1 [10, 20, 30] (by decide) (by decide)

theorem ringPush_empty (cap : Nat) (hc : 1 ≤ cap) (x : α) :
    ringPush cap [] x = [x] := by
  simp [ringPush, Nat.sub_eq_zero_of_le hc]

theorem publishDeliver_copies (p : IpmPayload) :
    ∀ (subs : List IpmSub) (na : Nat),
      (publishDeliver p na subs).2.2 = subs.length - 1 := by
  intro subs
  induction subs with
  | nil => intro na; rfl
  | cons s rest ih =>
    intro na
    cases rest with
    | nil => rfl
    | cons s2 rest2 =>
      simp only [publishDeliver]
      rw [ih]
      simp

theorem publishDeliver_buffers (p : IpmPayload) :
    ∀ (subs : List IpmSub) (na : Nat),
      (∀ s ∈ subs, s.buffer = [] ∧ 1 ≤ s.capacity) →
      ∀ s' ∈ (publishDeliver p na subs).1,
        ∃ q, s'.buffer = [q] ∧ q.content = p.content := by
  intro subs
  induction subs with
  | nil =>
    intro na h s' hs'
    simp [publishDeliver] at hs'
  | cons s rest ih =>
    intro na h s' hs'
    cases rest with
    | nil =>
      have hs := h s (by simp)
      simp only [publishDeliver, List.mem_singleton] at hs'
      subst hs'
      exact ⟨p, by simp [hs.1, ringPush_empty s.capacity hs.2], rfl⟩
    | cons s2 rest2 =>
      have hs := h s (by simp)
      simp only [publishDeliver, List.mem_cons] at hs'
      rcases hs' with hhead | htail
      · subst hhead
        exact ⟨⟨na, p.content⟩, by simp [hs.1, ringPush_empty s.capacity hs.2], rfl⟩
      · exact ih (na + 1) (fun t ht => h t (by simp [ht])) s' htail

theorem publishDeliver_result_ne_nil (p : IpmPayload) (a : IpmSub)
    (l : List IpmSub) (na : Nat) : (publishDeliver p na (a :: l)).1 ≠ [] := by
  cases l <;> simp [publishDeliver]

theorem publishDeliver_last (p : IpmPayload) :
    ∀ (subs : List IpmSub) (na : Nat), subs ≠ [] →
      (∀ s ∈ subs, s.buffer = [] ∧ 1 ≤ s.capacity) →
      ∃ sl, (publishDeliver p na subs).1.getLast? = some sl ∧
        sl.buffer = [p] := by
  intro subs
  induction subs with
  | nil => intro na hne h; exact absurd rfl hne
  | cons s rest ih =>
    intro na hne h
    cases rest with
    | nil =>
      have hs := h s (by simp)
      refine ⟨{ s with buffer := [p] }, ?_, rfl⟩
      simp [publishDeliver, hs.1, ringPush_empty s.capacity hs.2]
    | cons s2 rest2 =>
      obtain ⟨sl, hsl, hbuf⟩ :=
        ih (na + 1) (by simp) (fun t ht => h t (by simp [ht]))
      refine ⟨sl, ?_, hbuf⟩
      simp only [publishDeliver]
      rcases hrec : (publishDeliver p (na + 1) (s2 :: rest2)).1 with _ | ⟨b, l⟩
      · exact absurd hrec (publishDeliver_result_ne_nil p s2 rest2 (na + 1))
      · rw [hrec] at hsl
        simpa using hsl

/-- C6. Publishing a uniquely-owned payload through the
IntraProcessManager: with exactly one matched subscription the payload is
delivered as-is (same allocation, zero copies) and `take()` returns that
very payload, transferring ownership; with `N ≥ 1` matched subscriptions
exactly `N - 1` copies (hence at most `N - 1`) are made, every
subscription observes content equal to the published payload, and the
last match receives the original allocation. -/
theorem c6_intra_process_unique_ownership :
    (∀ (p : IpmPayload) (s : IpmSub) (na : Nat), s.buffer = [] →
      1 ≤ s.capacity →
      publishDeliver p na [s] = ([{ s with buffer := [p] }], na, 0) ∧
      ipmTake { s with buffer := [p] } = (some p, { s with buffer := [] })) ∧
    (∀ (p : IpmPayload) (subs : List IpmSub) (na : Nat),
      (publishDeliver p na subs).2.2 = subs.length - 1) ∧
    (∀ (p : IpmPayload) (subs : List IpmSub) (na : Nat),
      (∀ s ∈ subs, s.buffer = [] ∧ 1 ≤ s.capacity) →
      ∀ s' ∈ (publishDeliver p na subs).1,
        ∃ q, s'.buffer = [q] ∧ q.content = p.content) ∧
    (∀ (p : IpmPayload) (subs : List IpmSub) (na : Nat), subs ≠ [] →
      (∀ s ∈ subs, s.buffer = [] ∧ 1 ≤ s.capacity) →
      ∃ sl, (publishDeliver p na subs).1.getLast? = some sl ∧
        sl.buffer = [p]) := by
  refine ⟨?_, ?_, ?_, ?_⟩
  · intro p s na hbuf hcap
    constructor
    · simp [publishDeliver, hbuf, ringPush_empty s.capacity hcap]
    · simp [ipmTake, ringPop]
  · intro p subs na
    exact publishDeliver_copies p subs na
  · intro p subs na h
    exact publishDeliver_buffers p subs na h
  · intro p subs na hne h
    exact publishDeliver_last p subs na hne h

/-- C6 witness: one and two matched subscriptions with empty capacity-2
buffers. -/
theorem c6_intra_process_unique_ownership_witness :
    publishDeliver ⟨0, 42⟩ 100 [⟨1, 2, []⟩] = ([⟨1, 2, [⟨0, 42⟩]⟩], 100, 0) ∧
    (publishDeliver ⟨0, 42⟩ 100 [⟨1, 2, []⟩, ⟨2, 3, []⟩]).2.2 = 1 ∧
    (∃ sl, (publishDeliver ⟨0, 42⟩ 100
        [⟨1, 2, []⟩, ⟨2, 3, []⟩]).1.getLast? = some sl ∧
      sl.buffer = [⟨0, 42⟩]) :=
  ⟨(c6_intra_process_unique_ownership.1 ⟨0, 42⟩ ⟨1, 2, []⟩ 100 rfl
      (by decide)).1,
   c6_intra_process_unique_ownership.2.1 ⟨0, 42⟩ [⟨1, 2, []⟩, ⟨2, 3, []⟩] 100,
   c6_intra_process_unique_ownership.2.2.2 ⟨0, 42⟩ [⟨1, 2, []⟩, ⟨2, 3, []⟩] 100
     (by decide) (by decide)⟩

theorem waitModel_neg_ne_timeout (ms : List (Option Nat)) (t : Int)
    (ht : t < 0) : waitModel ms t ≠ some WaitResultKind.Timeout := by
  unfold waitModel
  split
  · simp
  · cases hr : earliestReady ms <;> simp [ht]

theorem earliestReady_nil : earliestReady [] = none := rfl

theorem threadSafeWait_result_eq :
    ∀ (muts : List Mutation) (ms : List (Option Nat)) (t : Int),
      (threadSafeWait ms t muts).1 =
        waitModel (threadSafeWait ms t muts).2.1 (threadSafeWait ms t muts).2.2 := by
  intro muts
  induction muts with
  | nil => intro ms t; rfl
  | cons m rest ih =>
    intro ms t
    cases h : arrivesDuringWait ms t m.delay
    · simp [threadSafeWait, h]
    · simp [threadSafeWait, h, ih]

theorem threadSafeWait_neg_budget :
    ∀ (muts : List Mutation) (ms : List (Option Nat)) (t : Int), t < 0 →
      (threadSafeWait ms t muts).2.2 = t := by
  intro muts
  induction muts with
  | nil => intro ms t ht; rfl
  | cons m rest ih =>
    intro ms t ht
    cases h : arrivesDuringWait ms t m.delay
    · simp [threadSafeWait, h]
    · simp [threadSafeWait, h, if_pos ht, ih _ _ ht]

theorem arrives_lt_budget (ms : List (Option Nat)) (t : Int) (d : Nat)
    (ht : 0 ≤ t) (h : arrivesDuringWait ms t d = true) : (d : Int) < t := by
  unfold arrivesDuringWait waitCompletionTime at h
  by_cases hemp : ms.isEmpty
  · simp [hemp] at h
    omega
  · cases hr : earliestReady ms with
    | some r =>
      simp [hemp, hr, show ¬ t < 0 by omega] at h
      omega
    | none =>
      simp [hemp, hr, show ¬ t < 0 by omega] at h
      exact h

theorem threadSafeWait_budget_le :
    ∀ (muts : List Mutation) (ms : List (Option Nat)) (t : Int), 0 ≤ t →
      (threadSafeWait ms t muts).2.2 ≤ t := by
  intro muts
  induction muts with
  | nil => intro ms t ht; simp [threadSafeWait]
  | cons m rest ih =>
    intro ms t ht
    cases h : arrivesDuringWait ms t m.delay
    · simp [threadSafeWait, h]
    · have hd : (m.delay : Int) < t := arrives_lt_budget ms t m.delay ht h
      simp only [threadSafeWait, h, if_true]
      rw [if_neg (by omega)]
      have := ih (m.update ms) (t - m.delay) (by omega)
      omega

/-- C1. `wait(t)` on the modelled wait set: an empty set returns Empty
immediately (a definite result, no blocking); a negative timeout never
yields Timeout; when some member becomes ready within the allowed time
the result is Ready; and when the set is non-empty, the timeout is
non-negative and no member is ready by then, the result is Timeout. -/
theorem c1_wait_semantics :
    (∀ t : Int, waitModel [] t = some WaitResultKind.Empty) ∧
    (∀ (ms : List (Option Nat)) (t : Int), t < 0 →
      waitModel ms t ≠ some WaitResultKind.Timeout) ∧
    (∀ (ms : List (Option Nat)) (t : Int) (r : Nat),
      earliestReady ms = some r → ((r : Int) ≤ t ∨ t < 0) →
      waitModel ms t = some WaitResultKind.Ready) ∧
    (∀ (ms : List (Option Nat)) (t : Int), 0 ≤ t → ms ≠ [] →
      (∀ r : Nat, earliestReady ms = some r → t < (r : Int)) →
      waitModel ms t = some WaitResultKind.Timeout) := by
  refine ⟨fun t => rfl, fun ms t ht => waitModel_neg_ne_timeout ms t ht, ?_, ?_⟩
  · intro ms t r hr hcond
    have hne : ms.isEmpty = false := by
      cases ms with
      | nil => rw [earliestReady_nil] at hr; exact absurd hr (by simp)
      | cons a l => rfl
    rcases hcond with h | h
    · simp [waitModel, hne, hr, h]
    · simp [waitModel, hne, hr, h]
  · intro ms t ht hne hlate
    have hne' : ms.isEmpty = false := by
      cases ms with
      | nil => exact absurd rfl hne
      | cons a l => rfl
    cases hr : earliestReady ms with
    | some r =>
      have hlt := hlate r hr
      simp [waitModel, hne', hr, show ¬ t < 0 by omega,
        show ¬ (r : Int) ≤ t by omega]
    | none =>
      simp [waitModel, hne', hr, show ¬ t < 0 by omega]

/-- C1 witness: empty set, indefinite wait, ready member, and timeout. -/
theorem c1_wait_semantics_witness :
    waitModel [] 5 = some WaitResultKind.Empty ∧
    waitModel [some 3] (-1) ≠ some WaitResultKind.Timeout ∧
    waitModel [some 3] 10 = some WaitResultKind.Ready ∧
    waitModel [none, some 7] 5 = some WaitResultKind.Timeout :=
  ⟨c1_wait_semantics.1 5,
   c1_wait_semantics.2.1 [some 3] (-1) (by decide),
   c1_wait_semantics.2.2.1 [some 3] 10 3 (by decide) (by decide),
   c1_wait_semantics.2.2.2 [none, some 7] 5 (by decide) (by decide)
     (fun r hr => by
       simp [earliestReady] at hr
       omega)⟩

/-- C3. On the modelled ThreadSafe synchronization policy: a mutation
arriving while a wait is in progress interrupts it, and the wait restarts
with the updated membership and the remaining (not the original) timeout
budget; the overall result always equals a wait over the final membership
with the final remaining budget; for a non-negative timeout the remaining
budget never exceeds the original; and an indefinite wait never yields
Timeout, interruptions notwithstanding. -/
theorem c3_thread_safe_wait_interrupt_restart :
    (∀ (ms : List (Option Nat)) (t : Int) (m : Mutation)
      (rest : List Mutation), arrivesDuringWait ms t m.delay = true →
      threadSafeWait ms t (m :: rest) =
        threadSafeWait (m.update ms) (if t < 0 then t else t - m.delay) rest) ∧
    (∀ (ms : List (Option Nat)) (t : Int) (muts : List Mutation),
      (threadSafeWait ms t muts).1 =
        waitModel (threadSafeWait ms t muts).2.1
          (threadSafeWait ms t muts).2.2) ∧
    (∀ (ms : List (Option Nat)) (t : Int) (muts : List Mutation), 0 ≤ t →
      (threadSafeWait ms t muts).2.2 ≤ t) ∧
    (∀ (ms : List (Option Nat)) (t : Int) (muts : List Mutation), t < 0 →
      (threadSafeWait ms t muts).1 ≠ some WaitResultKind.Timeout) := by
  refine ⟨?_, ?_, ?_, ?_⟩
  · intro ms t m rest h
    simp [threadSafeWait, h]
  · intro ms t muts
    exact threadSafeWait_result_eq muts ms t
  · intro ms t muts ht
    exact threadSafeWait_budget_le muts ms t ht
  · intro ms t muts ht
    rw [threadSafeWait_result_eq, threadSafeWait_neg_budget muts ms t ht]
    exact waitModel_neg_ne_timeout _ t ht

/-- C3 witness: a mutation arriving 2 time units into a 10-unit wait
interrupts it and the wait restarts with the grown membership and 8
remaining units. -/
theorem c3_thread_safe_wait_interrupt_restart_witness :
    threadSafeWait [none] 10 [⟨2, fun ms => ms ++ [some 9]⟩] =
      threadSafeWait [none, some 9] 8 [] ∧
    (threadSafeWait [none] 10 [⟨2, fun ms => ms ++ [some 9]⟩]).2.2 ≤ 10 ∧
    (threadSafeWait [none] (-1) []).1 ≠ some WaitResultKind.Timeout :=
  ⟨c3_thread_safe_wait_interrupt_restart.1 [none] 10
      ⟨2, fun ms => ms ++ [some 9]⟩ [] (by decide),
   c3_thread_safe_wait_interrupt_restart.2.2.1 [none] 10
     [⟨2, fun ms => ms ++ [some 9]⟩] (by decide),
   c3_thread_safe_wait_interrupt_restart.2.2.2 [none] (-1) [] (by decide)⟩

end Rclcpp
